import Mathlib

/-!
Verification of the question-routing / table-extraction pipeline.

This file gives a shallow embedding of the two pipeline variants of the
repository (the simple keyword router in `agent.py` and the agent-backed
extraction/visualization pipeline in `agent_with_sql.py`) and proves the
specified properties about them.

Conventions of the embedding:
* Python strings are Lean `String`s (lists of characters); `str.strip`,
  `str.splitlines`, `str.lower`, substring tests and the two `re.sub`
  fence-stripping calls are modelled by executable Lean functions below.
  `str.lower` is modelled with `Char.toLower` (ASCII case mapping), which
  agrees with Python on the ASCII questions and keywords involved.
* `csv.reader` (default dialect: delimiter `,`, quote `"`, doublequote,
  non-strict) is modelled by the state machine `csvAux`; records are
  separated by newlines, quoted fields may contain separators, a doubled
  quote inside a quoted field is a literal quote, and a blank line yields
  an empty record.
* Matplotlib rendering and file writes are I/O; what the code decides is
  captured by `ChartDecision` (the chart-type selection made inside
  `maybe_chart`: no chart / time-series / categorical) and by the path
  fields recorded in the state.
* `float(...)` and `datetime.fromisoformat(...)` are used by the source
  only for their success/failure; they are modelled by the recognizers
  `pyFloatOk` and `pyDateOk`.
-/

/-- The backtick character (written via its code point). -/
def btick : Char := '\x60'

/-- Three backticks, the fence marker of the `re.sub` patterns. -/
def ticks3 : List Char := [btick, btick, btick]

/-- Characters for which Python's `str.isspace` is true; `str.strip()`
with no argument removes exactly these from both ends. -/
def pyIsSpace (c : Char) : Bool :=
  [' ', '\t', '\n', '\r', '\x0b', '\x0c',
   '\x1c', '\x1d', '\x1e', '\x1f', '\x85', '\xa0',
   '\u1680', '\u2000', '\u2001', '\u2002', '\u2003', '\u2004',
   '\u2005', '\u2006', '\u2007', '\u2008', '\u2009', '\u200a',
   '\u2028', '\u2029', '\u202f', '\u205f', '\u3000'].contains c

/-- Line-boundary characters of Python's `str.splitlines`. -/
def isLineBrk (c : Char) : Bool :=
  ['\n', '\r', '\x0b', '\x0c', '\x1c', '\x1d', '\x1e',
   '\x85', '\u2028', '\u2029'].contains c

/-- `str.strip()` on a character list: drop `isspace` characters from
both ends. -/
def pyStripL (l : List Char) : List Char :=
  ((l.dropWhile pyIsSpace).reverse.dropWhile pyIsSpace).reverse

/-- Python `text.strip()`. -/
def pyStrip (s : String) : String := String.mk (pyStripL s.data)

/-- Worker for `str.splitlines`: `cur` is the current (unfinished) line;
`afterCR` records that the previous character was a carriage return, so
that a directly following newline is swallowed (`\r\n` counts once). -/
def splAux (afterCR : Bool) (cur : List Char) : List Char → List String
  | [] => if cur.isEmpty then [] else [String.mk cur]
  | c :: cs =>
    if afterCR = true ∧ c = '\n' then splAux false cur cs
    else if c = '\r' then String.mk cur :: splAux true [] cs
    else if isLineBrk c then String.mk cur :: splAux false [] cs
    else splAux false (cur ++ [c]) cs

/-- Python `text.splitlines()`: split at line boundaries, `\r\n` counting
once, with no trailing empty line for a trailing terminator. -/
def pySplitlines (s : String) : List String := splAux false [] s.data

/-- Substring test on character lists (`needle` occurs inside the second
argument), the meaning of Python's `k in q` for strings. -/
def subChars (n : List Char) : List Char → Bool
  | [] => n.isEmpty
  | c :: cs => n.isPrefixOf (c :: cs) || subChars n cs

/-- Python `k in q` (substring containment). -/
def strIn (needle hay : String) : Bool := subChars needle.data hay.data

/-- Python `q.lower()` (ASCII case mapping, see the file comment). -/
def pyLower (s : String) : String := String.mk (s.data.map Char.toLower)

/-! ### The simple router (`agent.py`) -/

/-- Graph state of `agent.py` (`AgentState`): `question`, optional
`intent` and optional `answer`. -/
structure AgentState where
  question : String
  intent : Option String := none
  answer : Option String := none
  deriving DecidableEq, Repr

/-- The KPI keyword list of `node_plan`. -/
def kpiKeywords : List String :=
  ["revenue", "sales", "units", "trend", "top", "leaderboard"]

/-- The sentiment keyword list of `node_plan`. -/
def sentimentKeywords : List String :=
  ["sentiment", "feedback", "review"]

/-- `node_plan`: lowercase the question, set `intent` to `"fallback"`,
overwrite with `"kpi"` when a KPI keyword occurs, then overwrite with
`"sentiment"` when a sentiment keyword occurs (declaration order,
last assignment wins). -/
def node_plan (state : AgentState) : AgentState :=
  let q := pyLower state.question
  let intent0 := "fallback"
  let intent1 := if kpiKeywords.any (fun k => strIn k q) then "kpi" else intent0
  let intent2 := if sentimentKeywords.any (fun k => strIn k q) then "sentiment" else intent1
  { state with intent := some intent2 }

/-- `route_from_intent`: `state.intent or "fallback"` (Python `or`
returns the right operand when the left is `None` or empty). -/
def route_from_intent (state : AgentState) : String :=
  match state.intent with
  | none => "fallback"
  | some i => if i = "" then "fallback" else i

/-- `node_kpi` (stub branch handler). -/
def node_kpi (state : AgentState) : AgentState :=
  { state with
    answer := some "KPI branch: I would compute metrics (revenue/units) and return a chart." }

/-- `node_sentiment` (stub branch handler). -/
def node_sentiment (state : AgentState) : AgentState :=
  { state with
    answer := some "Sentiment branch: I would aggregate daily sentiment from feedback data and plot a trend." }

/-- The canned guidance string of `node_fallback`. -/
def fallbackMsg : String :=
  "Sorry, I didn’t understand. Try asking about revenue trend, top products, store leaderboard, or sentiment."

/-- `node_fallback`. -/
def node_fallback (state : AgentState) : AgentState :=
  { state with answer := some fallbackMsg }

/-- The conditional-edge mapping of `build_graph`: the router's string is
looked up in `{"kpi": kpi, "sentiment": sentiment, "fallback": fallback}`;
a key outside the mapping is a runtime error, modelled as `none`. -/
def dispatch (intent : String) (s : AgentState) : Option AgentState :=
  if intent = "kpi" then some (node_kpi s)
  else if intent = "sentiment" then some (node_sentiment s)
  else if intent = "fallback" then some (node_fallback s)
  else none

/-- One full run of the compiled `agent.py` graph on a question:
START → plan → (conditional edge) → branch node → END. -/
def runGraph (q : String) : Option AgentState :=
  let s1 := node_plan { question := q }
  dispatch (route_from_intent s1) s1

/-! ### Fence stripping and CSV parsing (`agent_with_sql.py`) -/

/-- Split a character list at newline characters, keeping empty parts
(the positions at which `re.M` makes `^` and the pre-newline `$` match
are exactly the starts and ends of these parts). -/
def nlSplit : List Char → List (List Char)
  | [] => [[]]
  | c :: cs =>
    if c = '\n' then [] :: nlSplit cs
    else
      match nlSplit cs with
      | [] => [[c]]
      | p :: ps => (c :: p) :: ps

/-- Join parts with a separator character (inverse of `nlSplit` for
separator `'\n'`). -/
def joinSep (sep : Char) : List (List Char) → List Char
  | [] => []
  | [r] => r
  | r :: rs => r ++ sep :: joinSep sep rs

/-- One line-start action of `re.sub(r"^(fence)(csv|CSV)?", "", …)`:
remove a leading ```` ```csv ````, ```` ```CSV ```` or ```` ``` ````
marker once (the regex matches the longest alternative at the line
start and scanning resumes after the match). -/
def stripTicksStart (l : List Char) : List Char :=
  if l.take 6 = ticks3 ++ ['c', 's', 'v'] then l.drop 6
  else if l.take 6 = ticks3 ++ ['C', 'S', 'V'] then l.drop 6
  else if l.take 3 = ticks3 then l.drop 3
  else l

/-- One line-end action of `re.sub(r"(fence)$", "", …)`: remove one
trailing ```` ``` ```` marker from the end of the line. -/
def stripTicksEnd (l : List Char) : List Char :=
  if l.reverse.take 3 = ticks3 then (l.reverse.drop 3).reverse else l

/-- The first `re.sub` of `parse_csv_from_text` (multiline, applied at
every line start). -/
def fenceStart (l : List Char) : List Char :=
  joinSep '\n' ((nlSplit l).map stripTicksStart)

/-- The second `re.sub` of `parse_csv_from_text` (multiline, applied at
every line end). -/
def fenceEnd (l : List Char) : List Char :=
  joinSep '\n' ((nlSplit l).map stripTicksEnd)

/-- The `cleaned` text of `parse_csv_from_text`: strip, then the two
fence-removing substitutions in order. -/
def cleanedText (text : String) : String :=
  String.mk (fenceEnd (fenceStart (pyStrip text).data))

/-- Parser modes of the `csv.reader` state machine (default dialect):
`rstart` at the start of a record, `eatlf` right after a bare carriage
return, `fstart` right after a delimiter, `infld` inside an unquoted
field, `quoted` inside a quoted field, `afterq` right after a closing
quote. -/
inductive CMode where
  | rstart | eatlf | fstart | infld | quoted | afterq
  deriving DecidableEq, Repr

/-- The `csv.reader` state machine on the remaining input; `fld` is the
current field, `rec` the fields of the current record. A blank line
yields an empty record; `\r`, `\n` and `\r\n` all terminate a record;
a doubled quote inside a quoted field is a literal quote; in the
non-strict default dialect a quote inside an unquoted field, or text
after a closing quote, is taken literally. -/
def csvAux : CMode → List Char → List String → List Char → List (List String)
  | .rstart, _fld, _rec, [] => []
  | .eatlf, _fld, _rec, [] => []
  | .fstart, fld, rec, [] => [rec ++ [String.mk fld]]
  | .infld, fld, rec, [] => [rec ++ [String.mk fld]]
  | .quoted, fld, rec, [] => [rec ++ [String.mk fld]]
  | .afterq, fld, rec, [] => [rec ++ [String.mk fld]]
  | .rstart, _fld, _rec, c :: cs =>
    if c = '\n' then [] :: csvAux .rstart [] [] cs
    else if c = '\r' then [] :: csvAux .eatlf [] [] cs
    else if c = ',' then csvAux .fstart [] [String.mk []] cs
    else if c = '"' then csvAux .quoted [] [] cs
    else csvAux .infld [c] [] cs
  | .eatlf, _fld, _rec, c :: cs =>
    if c = '\n' then csvAux .rstart [] [] cs
    else if c = '\r' then [] :: csvAux .eatlf [] [] cs
    else if c = ',' then csvAux .fstart [] [String.mk []] cs
    else if c = '"' then csvAux .quoted [] [] cs
    else csvAux .infld [c] [] cs
  | .fstart, fld, rec, c :: cs =>
    if c = '\n' then (rec ++ [String.mk fld]) :: csvAux .rstart [] [] cs
    else if c = '\r' then (rec ++ [String.mk fld]) :: csvAux .eatlf [] [] cs
    else if c = ',' then csvAux .fstart [] (rec ++ [String.mk fld]) cs
    else if c = '"' then csvAux .quoted fld rec cs
    else csvAux .infld (fld ++ [c]) rec cs
  | .infld, fld, rec, c :: cs =>
    if c = '\n' then (rec ++ [String.mk fld]) :: csvAux .rstart [] [] cs
    else if c = '\r' then (rec ++ [String.mk fld]) :: csvAux .eatlf [] [] cs
    else if c = ',' then csvAux .fstart [] (rec ++ [String.mk fld]) cs
    else csvAux .infld (fld ++ [c]) rec cs
  | .quoted, fld, rec, c :: cs =>
    if c = '"' then csvAux .afterq fld rec cs
    else csvAux .quoted (fld ++ [c]) rec cs
  | .afterq, fld, rec, c :: cs =>
    if c = '"' then csvAux .quoted (fld ++ [c]) rec cs
    else if c = ',' then csvAux .fstart [] (rec ++ [String.mk fld]) cs
    else if c = '\n' then (rec ++ [String.mk fld]) :: csvAux .rstart [] [] cs
    else if c = '\r' then (rec ++ [String.mk fld]) :: csvAux .eatlf [] [] cs
    else csvAux .infld (fld ++ [c]) rec cs

/-- `list(csv.reader(io.StringIO(s)))`. -/
def csvReader (s : String) : List (List String) :=
  csvAux .rstart [] [] s.data

/-- `parse_csv_from_text`: reject when the first line of the stripped
text has no comma; otherwise strip fences, read the CSV, take the first
record as header, and discard everything when any data row's width
differs from the header's. -/
def parse_csv_from_text (text : String) : Option (List String × List (List String)) :=
  if (((pySplitlines (pyStrip text)).headD "").data.count ',') < 1 then none
  else
    match csvReader (cleanedText text) with
    | [] => none
    | header :: data =>
      if data.any (fun r => r.length ≠ header.length) then none
      else some (header, data)

/-! ### Recognizers for `float(...)` and `datetime.fromisoformat(...)` -/

/-- Consume `(digit | _ digit)*` after an initial digit: digit runs may
contain single underscores strictly between digits (Python numeric
literals accepted by `float`). -/
def runAux : List Char → List Char
  | '_' :: d :: cs => if d.isDigit then runAux cs else '_' :: d :: cs
  | c :: cs => if c.isDigit then runAux cs else c :: cs
  | [] => []

/-- Consume a digit run (at least one digit); `none` when the input does
not start with a digit. -/
def parseRun : List Char → Option (List Char)
  | c :: cs => if c.isDigit then some (runAux cs) else none
  | [] => none

/-- Consume the mantissa of a float literal: `run [. [run]]` or `. run`. -/
def mantissa (l : List Char) : Option (List Char) :=
  match parseRun l with
  | some rest =>
    match rest with
    | '.' :: cs =>
      match parseRun cs with
      | some r => some r
      | none => some cs
    | _ => some rest
  | none =>
    match l with
    | '.' :: cs => parseRun cs
    | _ => none

/-- Accept the remainder after the mantissa: empty, or a well-formed
exponent part consuming the whole rest. -/
def afterMant : List Char → Bool
  | [] => true
  | c :: cs =>
    if c = 'e' ∨ c = 'E' then
      let cs' := match cs with
        | s :: r => if s = '+' ∨ s = '-' then r else s :: r
        | [] => []
      match parseRun cs' with
      | some [] => true
      | _ => false
    else false

/-- Does Python's `float(s)` succeed? Whitespace is stripped, an optional
sign may precede either a numeric literal or one of the case-insensitive
words `inf`, `infinity`, `nan`. -/
def pyFloatOk (s : String) : Bool :=
  let l := (pyStrip s).data
  let l' := match l with
    | c :: cs => if c = '+' ∨ c = '-' then cs else c :: cs
    | [] => []
  let low := l'.map Char.toLower
  low = ['i', 'n', 'f'] || low = ['i', 'n', 'f', 'i', 'n', 'i', 't', 'y'] ||
  low = ['n', 'a', 'n'] ||
  (match mantissa l' with
   | some rest => afterMant rest
   | none => false)

/-- The numeric value of two decimal digit characters. -/
def twoDig (a b : Char) : Nat := (a.toNat - 48) * 10 + (b.toNat - 48)

/-- Gregorian leap-year test. -/
def isLeap (y : Nat) : Bool := (y % 4 == 0 && y % 100 != 0) || y % 400 == 0

/-- Days in a month of a given year. -/
def daysInMonth (y m : Nat) : Nat :=
  if m = 2 then (if isLeap y then 29 else 28)
  else if m = 4 ∨ m = 6 ∨ m = 9 ∨ m = 11 then 30
  else 31

/-- Accept the time part `HH:MM[:SS[.fff[fff]]]` of an ISO timestamp. -/
def timeOk : List Char → Bool
  | h1 :: h2 :: ':' :: m1 :: m2 :: rest =>
    h1.isDigit && h2.isDigit && m1.isDigit && m2.isDigit &&
    decide (twoDig h1 h2 ≤ 23) && decide (twoDig m1 m2 ≤ 59) &&
    (match rest with
     | [] => true
     | ':' :: s1 :: s2 :: rest2 =>
       s1.isDigit && s2.isDigit && decide (twoDig s1 s2 ≤ 59) &&
       (match rest2 with
        | [] => true
        | '.' :: fs => decide (fs.length = 3 ∨ fs.length = 6) && fs.all Char.isDigit
        | _ => false)
     | _ => false)
  | _ => false

/-- Does `datetime.fromisoformat(s)` succeed? The strict ISO layout
`YYYY-MM-DD` with a calendar-valid month and day, optionally followed by
a one-character separator and a time part. -/
def pyDateOk (s : String) : Bool :=
  match s.data with
  | y1 :: y2 :: y3 :: y4 :: '-' :: m1 :: m2 :: '-' :: e1 :: e2 :: rest =>
    y1.isDigit && y2.isDigit && y3.isDigit && y4.isDigit &&
    m1.isDigit && m2.isDigit && e1.isDigit && e2.isDigit &&
    (let mo := twoDig m1 m2
     let da := twoDig e1 e2
     let yr := (y1.toNat - 48) * 1000 + (y2.toNat - 48) * 100 +
               (y3.toNat - 48) * 10 + (y4.toNat - 48)
     decide (1 ≤ mo) && decide (mo ≤ 12) && decide (1 ≤ da) &&
     decide (da ≤ daysInMonth yr mo)) &&
    (match rest with
     | [] => true
     | _sep :: t => timeOk t)
  | _ => false

/-! ### Chart selection (`maybe_chart`) and the SQL pipeline nodes -/

/-- The chart-type decision taken inside `maybe_chart` (the spec's
`ChartDecision`): no chart, a time-series plot over all rows, or a bar
chart over the first 30 rows. The `x`/label entries are the raw
first-column strings in table order (the source parses them to
`datetime` values for plotting, preserving order), and the `y` entries
are the raw second-column strings whose `float` parses succeeded. -/
inductive ChartDecision where
  | noChart
  | timeSeries (x : List String) (y : List String)
  | categorical (xLabels : List String) (y : List String)
  deriving DecidableEq, Repr

/-- Success of `float(r[1])` for one row: the row needs a second entry
and its `float` parse must succeed (a missing index raises, which the
source catches the same way as a failed parse). -/
def rowFloat (r : List String) : Bool :=
  match r with
  | _ :: v :: _ => pyFloatOk v
  | _ => false

/-- The decision logic of `maybe_chart`: fewer than 2 columns or no rows
→ no chart; any failed `float(r[1])` → no chart; all first-column values
ISO dates → time series over all rows; otherwise categorical over the
first 30 rows with labels verbatim from column 1. -/
def maybe_chart (header : List String) (rows : List (List String))
    (_question : String) : ChartDecision :=
  if header.length < 2 || rows.isEmpty then .noChart
  else if rows.any (fun r => !rowFloat r) then .noChart
  else
    let x := rows.map (fun r => r.headD "")
    let y := rows.map (fun r => r.getD 1 "")
    if rows.all (fun r => pyDateOk (r.headD "")) then .timeSeries x y
    else .categorical (x.take 30) (y.take 30)

/-- Graph state of `agent_with_sql.py` (`AgentState` there). -/
structure SqlAgentState where
  question : String
  raw_output : Option String := none
  result_csv_path : Option String := none
  chart_png_path : Option String := none
  message : Option String := none
  deriving DecidableEq, Repr

/-- The fixed safety preamble prepended to every agent prompt. -/
def SAFETY_PREFIX : String :=
  "Use only SELECT. Never modify data. If grouping by day, use DATE(Date) AS Date. When feasible, return results as CSV (first line headers, comma-separated)."

/-- The fixed CSV artifact location `os.path.join(OUT_DIR, "result.csv")`. -/
def outCsv : String := "./outputs/result.csv"

/-- The fixed chart artifact location `os.path.join(OUT_DIR, "chart.png")`. -/
def outPng : String := "./outputs/chart.png"

/-- `node_agent`: delegate to the external SQL agent (modelled by the
oracle `agentReply`) on the safety-prefixed question and record its
output. -/
def node_agent (agentReply : String → String) (state : SqlAgentState) : SqlAgentState :=
  { state with
    raw_output := some (agentReply (SAFETY_PREFIX ++ "\n\nQuestion: " ++ state.question)) }

/-- `node_parse_and_visualize`: absent or empty raw output → fixed
message; unparsable output → the raw text as message; otherwise record
the CSV path, the chart path when a chart was drawn, and a summary
message naming the written artifacts. -/
def node_parse_and_visualize (state : SqlAgentState) : SqlAgentState :=
  match state.raw_output with
  | none => { state with message := some "No output from agent." }
  | some raw =>
    if raw = "" then { state with message := some "No output from agent." }
    else
      match parse_csv_from_text raw with
      | none => { state with message := some raw }
      | some (header, rows) =>
        let chart := maybe_chart header rows state.question
        let chartPath : Option String :=
          if chart = ChartDecision.noChart then none else some outPng
        { state with
          result_csv_path := some outCsv,
          chart_png_path := chartPath,
          message := some ("Saved " ++ outCsv ++
            (match chartPath with
             | some p => " and " ++ p
             | none => "")) }

/-- One full run of the `agent_with_sql.py` graph:
START → agent → parse_visualize → END. -/
def runSqlGraph (agentReply : String → String) (q : String) : SqlAgentState :=
  node_parse_and_visualize (node_agent agentReply { question := q })

/-! ### Well-formed tables and their rendering (for the idempotence claim) -/

/-- A character that is unproblematic inside a CSV field: not whitespace
(hence not a record separator), not the delimiter, not a quote, and not
a backtick. -/
def goodChar (c : Char) : Bool :=
  !(pyIsSpace c) && !(c == ',') && !(c == '"') && !(c == btick)

/-- A field all of whose characters are unproblematic. -/
def goodField (f : String) : Bool := f.data.all goodChar

/-- Render one record as a comma-separated line. -/
def renderRecord (fs : List String) : List Char := joinSep ',' (fs.map String.data)

/-- Render a header and data rows as comma-separated text: one line per
record, joined by newlines (the "well-formed comma-separated text" of
the idempotence property). -/
def renderTable (header : List String) (rows : List (List String)) : String :=
  String.mk (joinSep '\n' ((header :: rows).map renderRecord))

/-- Well-formedness of a table for the idempotence property: at least
two columns, width-consistent rows, and unproblematic fields. -/
def wfTable (header : List String) (rows : List (List String)) : Bool :=
  decide (2 ≤ header.length) &&
  rows.all (fun r => r.length == header.length) &&
  (header :: rows).all (fun rec => rec.all goodField)

/-- Wrap text in a language-tagged code fence, the wrapped form of the
idempotence property. -/
def fenceWrap (t : String) : String := "```csv\n" ++ t ++ "\n```"

/-! ### Theorems: the classifier and the pipeline states -/

theorem strMk_data (s : String) : String.mk s.data = s := by
  cases s; rfl

/-- The `intent` computed by `node_plan` is one of the three routed
values. -/
theorem node_plan_intent_cases (q : String) :
    (node_plan { question := q }).intent = some "kpi" ∨
    (node_plan { question := q }).intent = some "sentiment" ∨
    (node_plan { question := q }).intent = some "fallback" := by
  by_cases h2 : sentimentKeywords.any (fun k => strIn k (pyLower q)) = true
  · right; left; simp [node_plan, h2]
  · by_cases h1 : kpiKeywords.any (fun k => strIn k (pyLower q)) = true
    · left
      simp [node_plan, h1, eq_false_of_ne_true h2]
    · right; right
      simp [node_plan, eq_false_of_ne_true h1, eq_false_of_ne_true h2]

/-- C1: rules fire in declaration order with last-match-wins override:
a question whose lowercased text contains a KPI keyword and no sentiment
keyword is classified `kpi`; one containing keywords of both sets is
classified `sentiment`. -/
theorem node_plan_kpi_sentiment_override (s : AgentState) :
    ((∃ k ∈ kpiKeywords, strIn k (pyLower s.question) = true) →
      (∀ k ∈ sentimentKeywords, strIn k (pyLower s.question) = false) →
      (node_plan s).intent = some "kpi") ∧
    ((∃ k ∈ kpiKeywords, strIn k (pyLower s.question) = true) →
      (∃ k ∈ sentimentKeywords, strIn k (pyLower s.question) = true) →
      (node_plan s).intent = some "sentiment") := by
  constructor
  · rintro ⟨k, hk, hks⟩ hs
    have h1 : kpiKeywords.any (fun k => strIn k (pyLower s.question)) = true :=
      List.any_eq_true.mpr ⟨k, hk, hks⟩
    have h2 : sentimentKeywords.any (fun k => strIn k (pyLower s.question)) = false := by
      rw [List.any_eq_false]
      intro x hx
      simp [hs x hx]
    simp [node_plan, h1, h2]
  · rintro _ ⟨k, hk, hks⟩
    have h2 : sentimentKeywords.any (fun k => strIn k (pyLower s.question)) = true :=
      List.any_eq_true.mpr ⟨k, hk, hks⟩
    simp [node_plan, h2]

/-- Witness for C1 at the spec's example questions. -/
theorem node_plan_kpi_sentiment_override_w :
    (node_plan { question := "Show revenue trend for last 30 days" }).intent = some "kpi" ∧
    (node_plan { question := "Show revenue trend and sentiment feedback" }).intent = some "sentiment" :=
  ⟨(node_plan_kpi_sentiment_override { question := "Show revenue trend for last 30 days" }).1
      (by decide) (by decide),
   (node_plan_kpi_sentiment_override { question := "Show revenue trend and sentiment feedback" }).2
      (by decide) (by decide)⟩

/-- C7: a question whose lowercased text contains none of the
classifier's keywords is classified `fallback`, and the full graph run
terminates with the canned guidance string as the answer. -/
theorem fallback_route (q : String)
    (h : ∀ k ∈ kpiKeywords ++ sentimentKeywords, strIn k (pyLower q) = false) :
    (node_plan { question := q }).intent = some "fallback" ∧
    runGraph q = some { question := q, intent := some "fallback", answer := some fallbackMsg } := by
  have h1 : kpiKeywords.any (fun k => strIn k (pyLower q)) = false := by
    rw [List.any_eq_false]
    intro x hx
    simp [h x (List.mem_append_left _ hx)]
  have h2 : sentimentKeywords.any (fun k => strIn k (pyLower q)) = false := by
    rw [List.any_eq_false]
    intro x hx
    simp [h x (List.mem_append_right _ hx)]
  have hp : node_plan { question := q } =
      { question := q, intent := some "fallback", answer := none } := by
    simp [node_plan, h1, h2]
  refine ⟨by rw [hp], ?_⟩
  unfold runGraph
  rw [hp]
  simp [route_from_intent, dispatch, node_fallback]

/-- Witness for C7 at the spec's example question. -/
theorem fallback_route_w :
    (node_plan { question := "Tell me something random" }).intent = some "fallback" ∧
    runGraph "Tell me something random" =
      some { question := "Tell me something random", intent := some "fallback",
             answer := some fallbackMsg } :=
  fallback_route "Tell me something random" (by decide)

/-- C8: the user-facing message field is non-absent on every terminal
state: through every path of the final SQL-pipeline node, on every full
SQL-pipeline run, and (as the `answer` field) on every run of the simple
router graph. -/
theorem message_nonabsent :
    (∀ s : SqlAgentState, (node_parse_and_visualize s).message.isSome = true) ∧
    (∀ (f : String → String) (q : String), (runSqlGraph f q).message.isSome = true) ∧
    (∀ q : String, ∃ st, runGraph q = some st ∧ st.answer.isSome = true) := by
  have hn : ∀ s : SqlAgentState, (node_parse_and_visualize s).message.isSome = true := by
    intro s
    cases hro : s.raw_output with
    | none => simp [node_parse_and_visualize, hro]
    | some raw =>
      by_cases hr : raw = ""
      · simp [node_parse_and_visualize, hro, hr]
      · cases hp : parse_csv_from_text raw with
        | none => simp [node_parse_and_visualize, hro, hr, hp]
        | some p =>
          obtain ⟨hd, rows⟩ := p
          simp [node_parse_and_visualize, hro, hr, hp]
  refine ⟨hn, fun f q => hn _, ?_⟩
  intro q
  unfold runGraph
  rcases node_plan_intent_cases q with h | h | h <;>
    simp [route_from_intent, h, dispatch, node_kpi, node_sentiment, node_fallback]

/-- C9: every node is copy-with-update: the `question` field is
preserved by every node, and every field a node does not set keeps its
input value. -/
theorem nodes_frame :
    (∀ s : AgentState, (node_plan s).question = s.question ∧ (node_plan s).answer = s.answer) ∧
    (∀ s : AgentState, (node_kpi s).question = s.question ∧ (node_kpi s).intent = s.intent) ∧
    (∀ s : AgentState, (node_sentiment s).question = s.question ∧ (node_sentiment s).intent = s.intent) ∧
    (∀ s : AgentState, (node_fallback s).question = s.question ∧ (node_fallback s).intent = s.intent) ∧
    (∀ (f : String → String) (t : SqlAgentState),
      (node_agent f t).question = t.question ∧
      (node_agent f t).result_csv_path = t.result_csv_path ∧
      (node_agent f t).chart_png_path = t.chart_png_path ∧
      (node_agent f t).message = t.message) ∧
    (∀ t : SqlAgentState,
      (node_parse_and_visualize t).question = t.question ∧
      (node_parse_and_visualize t).raw_output = t.raw_output) := by
  refine ⟨fun s => ⟨rfl, rfl⟩, fun s => ⟨rfl, rfl⟩, fun s => ⟨rfl, rfl⟩,
    fun s => ⟨rfl, rfl⟩, fun f t => ⟨rfl, rfl, rfl, rfl⟩, ?_⟩
  intro t
  cases hro : t.raw_output with
  | none => simp [node_parse_and_visualize, hro]
  | some raw =>
    by_cases hr : raw = ""
    · simp [node_parse_and_visualize, hro, hr]
    · cases hp : parse_csv_from_text raw with
      | none => simp [node_parse_and_visualize, hro, hr, hp]
      | some p =>
        obtain ⟨hd, rows⟩ := p
        simp [node_parse_and_visualize, hro, hr, hp]

/-- C10: on absent or empty raw output the final node sets the fixed
message and leaves the artifact-path fields exactly as they were (in a
pipeline run: unset), without reaching extraction or chart selection. -/
theorem no_output_branch (t : SqlAgentState)
    (h : t.raw_output = none ∨ t.raw_output = some "") :
    (node_parse_and_visualize t).message = some "No output from agent." ∧
    (node_parse_and_visualize t).result_csv_path = t.result_csv_path ∧
    (node_parse_and_visualize t).chart_png_path = t.chart_png_path := by
  rcases h with h | h <;> simp [node_parse_and_visualize, h]

/-- Witness for C10 on a fresh state with no raw output. -/
theorem no_output_branch_w :
    (node_parse_and_visualize { question := "Show revenue trend" }).message =
      some "No output from agent." ∧
    (node_parse_and_visualize { question := "Show revenue trend" }).result_csv_path = none ∧
    (node_parse_and_visualize { question := "Show revenue trend" }).chart_png_path = none :=
  no_output_branch { question := "Show revenue trend" } (Or.inl rfl)

/-! ### Theorems: chart selection -/

/-- C4: a single row whose second column fails the float parse forces
the `None` chart decision, whatever the other rows and the first column
contain. -/
theorem maybe_chart_nonnumeric (header : List String) (rows : List (List String)) (q : String)
    (h : ∃ r ∈ rows, ∃ v, r.get? 1 = some v ∧ pyFloatOk v = false) :
    maybe_chart header rows q = ChartDecision.noChart := by
  obtain ⟨r, hr, v, hv, hf⟩ := h
  have hb : rows.any (fun r => !rowFloat r) = true := by
    refine List.any_eq_true.mpr ⟨r, hr, ?_⟩
    match r, hv with
    | a :: b :: t, hv =>
      have hbv : b = v := by simpa using hv
      simp [rowFloat, hbv, hf]
  unfold maybe_chart
  by_cases hh : (header.length < 2 || rows.isEmpty) = true
  · simp [hh]
  · simp [eq_false_of_ne_true hh, hb]

/-- Witness for C4 at the spec's example table. -/
theorem maybe_chart_nonnumeric_w :
    maybe_chart ["City", "Rating"] [["NYC", "great"]] "rating" = ChartDecision.noChart :=
  maybe_chart_nonnumeric ["City", "Rating"] [["NYC", "great"]] "rating"
    ⟨["NYC", "great"], by decide, "great", by decide, by decide⟩

/-- C5: at least two columns, a fully float-parsable second column and a
fully date-parsable first column give a `TimeSeries` decision whose x
and y sequences are the columns in table order, with length equal to the
row count (no re-sorting, no truncation). -/
theorem maybe_chart_timeseries (header : List String) (rows : List (List String)) (q : String)
    (hlen : 2 ≤ header.length) (hne : rows ≠ [])
    (hnum : ∀ r ∈ rows, rowFloat r = true)
    (hdate : ∀ r ∈ rows, pyDateOk (r.headD "") = true) :
    maybe_chart header rows q =
      ChartDecision.timeSeries (rows.map (fun r => r.headD ""))
        (rows.map (fun r => r.getD 1 "")) ∧
    (rows.map (fun r => r.headD "")).length = rows.length ∧
    (rows.map (fun r => r.getD 1 "")).length = rows.length := by
  have hh : (header.length < 2 || rows.isEmpty) = false := by
    simp [Nat.not_lt.mpr hlen, hne]
  have hb : rows.any (fun r => !rowFloat r) = false := by
    rw [List.any_eq_false]
    intro r hr
    simp [hnum r hr]
  have hd : rows.all (fun r => pyDateOk (r.head?.getD "")) = true := by
    refine List.all_eq_true.mpr (fun r hr => ?_)
    simpa using hdate r hr
  refine ⟨?_, by simp, by simp⟩
  unfold maybe_chart
  simp [hh, hb, hd]

/-- Witness for C5 at the spec's example table. -/
theorem maybe_chart_timeseries_w :
    maybe_chart ["Date", "Revenue"] [["2024-01-01", "100.0"], ["2024-01-02", "150.0"]] "trend" =
      ChartDecision.timeSeries ["2024-01-01", "2024-01-02"] ["100.0", "150.0"] ∧
    (2 : Nat) = 2 ∧ (2 : Nat) = 2 :=
  maybe_chart_timeseries ["Date", "Revenue"] [["2024-01-01", "100.0"], ["2024-01-02", "150.0"]]
    "trend" (by decide) (by decide) (by decide) (by decide)

/-- C6: with a fully float-parsable second column but a first column
that fails date parsing somewhere, the decision is `Categorical` over
only the first `min(rowCount, 30)` rows, labels verbatim from column 1. -/
theorem maybe_chart_categorical (header : List String) (rows : List (List String)) (q : String)
    (hlen : 2 ≤ header.length) (hne : rows ≠ [])
    (hnum : ∀ r ∈ rows, rowFloat r = true)
    (hdate : ∃ r ∈ rows, pyDateOk (r.headD "") = false) :
    maybe_chart header rows q =
      ChartDecision.categorical ((rows.map (fun r => r.headD "")).take 30)
        ((rows.map (fun r => r.getD 1 "")).take 30) ∧
    ((rows.map (fun r => r.headD "")).take 30).length = min 30 rows.length := by
  have hh : (header.length < 2 || rows.isEmpty) = false := by
    simp [Nat.not_lt.mpr hlen, hne]
  have hb : rows.any (fun r => !rowFloat r) = false := by
    rw [List.any_eq_false]
    intro r hr
    simp [hnum r hr]
  have hd : rows.all (fun r => pyDateOk (r.head?.getD "")) = false := by
    rw [List.all_eq_false]
    obtain ⟨r, hr, hf⟩ := hdate
    exact ⟨r, hr, by simpa using hf⟩
  refine ⟨?_, by simp⟩
  unfold maybe_chart
  simp [hh, hb, hd]

/-- Witness for C6: a 50-row non-date table yields exactly 30
categorical entries. -/
theorem maybe_chart_categorical_w :
    maybe_chart ["Product", "Units"] (List.replicate 50 ["Widget", "1.0"]) "top products" =
      ChartDecision.categorical (List.replicate 30 "Widget") (List.replicate 30 "1.0") ∧
    (List.replicate 30 "Widget").length = 30 :=
  maybe_chart_categorical ["Product", "Units"] (List.replicate 50 ["Widget", "1.0"])
    "top products" (by decide) (by decide) (by decide)
    ⟨["Widget", "1.0"], by decide, by decide⟩

/-! ### Theorems: table extraction -/

/-- C3: a single data row whose field count differs from the header's
discards the whole parse — `parse_csv_from_text` returns absent rather
than a partial table. -/
theorem parse_rejects_ragged (text : String) (header : List String) (data : List (List String))
    (hcsv : csvReader (cleanedText text) = header :: data)
    (hbad : ∃ r ∈ data, r.length ≠ header.length) :
    parse_csv_from_text text = none := by
  unfold parse_csv_from_text
  by_cases hc : List.count ',' ((pySplitlines (pyStrip text)).headD "").data < 1
  · rw [if_pos hc]
  · rw [if_neg hc, hcsv]
    have hany : (data.any fun r => decide (r.length ≠ header.length)) = true := by
      obtain ⟨r, hr, hne⟩ := hbad
      exact List.any_eq_true.mpr ⟨r, hr, by simpa using hne⟩
    dsimp only
    rw [if_pos hany]

/-- Witness for C3 at the spec's example (header of width 2, a data row
of width 1). -/
theorem parse_rejects_ragged_w :
    parse_csv_from_text "A,B\n1,2\n3" = none :=
  parse_rejects_ragged "A,B\n1,2\n3" ["A", "B"] [["1", "2"], ["3"]] (by decide)
    ⟨["3"], by decide, by decide⟩

/-! ### Lemmas: character classes and the CSV state machine -/

theorem isLineBrk_space {c : Char} (h : isLineBrk c = true) : pyIsSpace c = true := by
  have hm : c ∈ ['\n', '\r', '\x0b', '\x0c', '\x1c', '\x1d', '\x1e',
      '\x85', '\u2028', '\u2029'] := by
    simpa [isLineBrk] using h
  fin_cases hm <;> decide

theorem goodChar_facts {c : Char} (h : goodChar c = true) :
    c ≠ '\n' ∧ c ≠ '\r' ∧ c ≠ ',' ∧ c ≠ '"' ∧ c ≠ btick ∧
    isLineBrk c = false ∧ pyIsSpace c = false := by
  have hsp : pyIsSpace c = false := by
    cases hx : pyIsSpace c
    · rfl
    · rw [goodChar, hx] at h
      simp at h
  have hbr : isLineBrk c = false := by
    cases hx : isLineBrk c
    · rfl
    · have := isLineBrk_space hx
      rw [this] at hsp
      exact absurd hsp (by simp)
  refine ⟨?_, ?_, ?_, ?_, ?_, hbr, hsp⟩
  · rintro rfl; exact absurd hsp (by decide)
  · rintro rfl; exact absurd hsp (by decide)
  · rintro rfl; exact absurd h (by decide)
  · rintro rfl; exact absurd h (by decide)
  · rintro rfl; exact absurd h (by decide)
theorem csvAux_rstart_comma (cs : List Char) :
    csvAux .rstart [] [] (',' :: cs) = csvAux .fstart [] [String.mk []] cs := by
  simp [csvAux]

theorem csvAux_rstart_good {c : Char} (h : goodChar c = true) (cs : List Char) :
    csvAux .rstart [] [] (c :: cs) = csvAux .infld [c] [] cs := by
  obtain ⟨h1, h2, h3, h4, _, _, _⟩ := goodChar_facts h
  simp [csvAux, h1, h2, h3, h4]

theorem csvAux_fstart_comma (fld : List Char) (rec : List String) (cs : List Char) :
    csvAux .fstart fld rec (',' :: cs) = csvAux .fstart [] (rec ++ [String.mk fld]) cs := by
  simp [csvAux]

theorem csvAux_fstart_nl (fld : List Char) (rec : List String) (cs : List Char) :
    csvAux .fstart fld rec ('\n' :: cs) =
      (rec ++ [String.mk fld]) :: csvAux .rstart [] [] cs := by
  simp [csvAux]

theorem csvAux_fstart_nil (fld : List Char) (rec : List String) :
    csvAux .fstart fld rec [] = [rec ++ [String.mk fld]] := by
  simp [csvAux]

theorem csvAux_fstart_good {c : Char} (h : goodChar c = true) (fld : List Char)
    (rec : List String) (cs : List Char) :
    csvAux .fstart fld rec (c :: cs) = csvAux .infld (fld ++ [c]) rec cs := by
  obtain ⟨h1, h2, h3, h4, _, _, _⟩ := goodChar_facts h
  simp [csvAux, h1, h2, h3, h4]

theorem csvAux_infld_comma (fld : List Char) (rec : List String) (cs : List Char) :
    csvAux .infld fld rec (',' :: cs) = csvAux .fstart [] (rec ++ [String.mk fld]) cs := by
  simp [csvAux]

theorem csvAux_infld_nl (fld : List Char) (rec : List String) (cs : List Char) :
    csvAux .infld fld rec ('\n' :: cs) =
      (rec ++ [String.mk fld]) :: csvAux .rstart [] [] cs := by
  simp [csvAux]

theorem csvAux_infld_nil (fld : List Char) (rec : List String) :
    csvAux .infld fld rec [] = [rec ++ [String.mk fld]] := by
  simp [csvAux]

theorem csvAux_infld_good {c : Char} (h : goodChar c = true) (fld : List Char)
    (rec : List String) (cs : List Char) :
    csvAux .infld fld rec (c :: cs) = csvAux .infld (fld ++ [c]) rec cs := by
  obtain ⟨h1, h2, h3, _, _, _, _⟩ := goodChar_facts h
  simp [csvAux, h1, h2, h3]

/-- Consuming a run of unproblematic characters inside an unquoted field
appends them all to the current field. -/
theorem csvAux_infld_chars (l : List Char) (hl : ∀ c ∈ l, goodChar c = true) :
    ∀ fld rec cs, csvAux .infld fld rec (l ++ cs) = csvAux .infld (fld ++ l) rec cs := by
  induction l with
  | nil => intro fld rec cs; simp
  | cons c l ih =>
    intro fld rec cs
    rw [List.cons_append, csvAux_infld_good (hl c (by simp)),
      ih (fun x hx => hl x (by simp [hx]))]
    simp

theorem goodField_chars {f : String} (h : goodField f = true) :
    ∀ c ∈ f.data, goodChar c = true := by
  intro c hc
  exact List.all_eq_true.mp (by simpa [goodField] using h) c hc

/-- Consuming one unproblematic field up to a delimiter. -/
theorem csvAux_fstart_field_comma (l : List Char) (hl : ∀ c ∈ l, goodChar c = true)
    (rec : List String) (cs : List Char) :
    csvAux .fstart [] rec (l ++ ',' :: cs) = csvAux .fstart [] (rec ++ [String.mk l]) cs := by
  cases l with
  | nil => simpa using csvAux_fstart_comma [] rec cs
  | cons c t =>
    rw [List.cons_append, csvAux_fstart_good (hl c (by simp)), List.nil_append,
      csvAux_infld_chars t (fun x hx => hl x (by simp [hx])), csvAux_infld_comma]
    simp

/-- Consuming one unproblematic field up to a record end. -/
theorem csvAux_fstart_field_nl (l : List Char) (hl : ∀ c ∈ l, goodChar c = true)
    (rec : List String) (cs : List Char) :
    csvAux .fstart [] rec (l ++ '\n' :: cs) =
      (rec ++ [String.mk l]) :: csvAux .rstart [] [] cs := by
  cases l with
  | nil => simpa using csvAux_fstart_nl [] rec cs
  | cons c t =>
    rw [List.cons_append, csvAux_fstart_good (hl c (by simp)), List.nil_append,
      csvAux_infld_chars t (fun x hx => hl x (by simp [hx])), csvAux_infld_nl]
    simp

/-- Consuming one unproblematic field up to the end of input. -/
theorem csvAux_fstart_field_nil (l : List Char) (hl : ∀ c ∈ l, goodChar c = true)
    (rec : List String) :
    csvAux .fstart [] rec l = [rec ++ [String.mk l]] := by
  cases l with
  | nil => simpa using csvAux_fstart_nil [] rec
  | cons c t =>
    rw [show (c :: t : List Char) = c :: (t ++ []) from by simp]
    rw [csvAux_fstart_good (hl c (by simp)), List.nil_append,
      csvAux_infld_chars t (fun x hx => hl x (by simp [hx])), csvAux_infld_nil]
    simp

/-- The rendering of a record of at least two fields splits as its first
field, a comma, and the rendering of the remaining fields. -/
theorem renderRecord_cons (f g : String) (gs : List String) :
    renderRecord (f :: g :: gs) = f.data ++ ',' :: renderRecord (g :: gs) := rfl

/-- Consuming one whole rendered record up to a record end. -/
theorem csvAux_record_nl (fs : List String) (hne : fs ≠ [])
    (hg : ∀ f ∈ fs, goodField f = true) (cs : List Char) :
    ∀ rec, csvAux .fstart [] rec (renderRecord fs ++ '\n' :: cs) =
      (rec ++ fs) :: csvAux .rstart [] [] cs := by
  induction fs with
  | nil => cases hne rfl
  | cons f gs ih =>
    intro rec
    have hf : ∀ c ∈ f.data, goodChar c = true := goodField_chars (hg f (by simp))
    cases gs with
    | nil =>
      rw [show renderRecord [f] = f.data from rfl, csvAux_fstart_field_nl f.data hf,
        strMk_data]
    | cons g gs' =>
      rw [renderRecord_cons, List.append_assoc, List.cons_append,
        csvAux_fstart_field_comma f.data hf, strMk_data,
        ih (by simp) (fun x hx => hg x (by simp [hx]))]
      simp

/-- Consuming one whole rendered record up to the end of input. -/
theorem csvAux_record_nil (fs : List String) (hne : fs ≠ [])
    (hg : ∀ f ∈ fs, goodField f = true) :
    ∀ rec, csvAux .fstart [] rec (renderRecord fs) = [rec ++ fs] := by
  induction fs with
  | nil => cases hne rfl
  | cons f gs ih =>
    intro rec
    have hf : ∀ c ∈ f.data, goodChar c = true := goodField_chars (hg f (by simp))
    cases gs with
    | nil =>
      rw [show renderRecord [f] = f.data from rfl, csvAux_fstart_field_nil f.data hf,
        strMk_data]
    | cons g gs' =>
      rw [renderRecord_cons,
        csvAux_fstart_field_comma f.data hf, strMk_data,
        ih (by simp) (fun x hx => hg x (by simp [hx]))]
      simp

/-- At the start of a record whose rendering has at least two fields,
the machine behaves as if it were right after a delimiter with an empty
current record. -/
theorem csvAux_rstart_record (fs : List String) (hlen : 2 ≤ fs.length)
    (hg : ∀ f ∈ fs, goodField f = true) (cs : List Char) :
    csvAux .rstart [] [] (renderRecord fs ++ cs) =
      csvAux .fstart [] [] (renderRecord fs ++ cs) := by
  obtain ⟨f, g, gs, rfl⟩ : ∃ f g gs, fs = f :: g :: gs := by
    match fs, hlen with
    | f :: g :: gs, _ => exact ⟨f, g, gs, rfl⟩
  rw [renderRecord_cons]
  cases hfd : f.data with
  | nil =>
    simp only [hfd, List.nil_append, List.cons_append]
    rw [csvAux_rstart_comma, csvAux_fstart_comma]
    simp
  | cons c t =>
    have hc : goodChar c = true := goodField_chars (hg f (by simp)) c (by simp [hfd])
    simp only [hfd, List.cons_append]
    rw [csvAux_rstart_good hc, csvAux_fstart_good hc, List.nil_append]

/-- Reading back a rendered list of well-formed records gives exactly
those records. -/
theorem csvAux_table (recs : List (List String)) (hne : recs ≠ [])
    (hlen : ∀ r ∈ recs, 2 ≤ r.length)
    (hg : ∀ r ∈ recs, ∀ f ∈ r, goodField f = true) :
    csvAux .rstart [] [] (joinSep '\n' (recs.map renderRecord)) = recs := by
  induction recs with
  | nil => cases hne rfl
  | cons r rs ih =>
    have hr2 : 2 ≤ r.length := hlen r (by simp)
    have hrne : r ≠ [] := by
      intro h
      rw [h] at hr2
      simp at hr2
    have hrg : ∀ f ∈ r, goodField f = true := hg r (by simp)
    cases rs with
    | nil =>
      show csvAux .rstart [] [] (renderRecord r) = [r]
      have h1 := csvAux_rstart_record r hr2 hrg []
      rw [List.append_nil] at h1
      rw [h1, csvAux_record_nil r hrne hrg]
      simp
    | cons r2 rs' =>
      show csvAux .rstart [] []
          (renderRecord r ++ '\n' :: joinSep '\n' ((r2 :: rs').map renderRecord)) =
        r :: r2 :: rs'
      rw [csvAux_rstart_record r hr2 hrg, csvAux_record_nl r hrne hrg,
        ih (by simp) (fun x hx => hlen x (by simp [hx]))
          (fun x hx => hg x (by simp [hx]))]
      simp

/-! ### Lemmas: strip, splitlines and string data -/

theorem strData_append (a b : String) : (a ++ b).data = a.data ++ b.data := by
  cases a; cases b; rfl

/-- `splitlines` copies a run of non-boundary characters into the
current line. -/
theorem splAux_chars (l : List Char) (hl : ∀ c ∈ l, isLineBrk c = false) :
    ∀ cur cs, splAux false cur (l ++ cs) = splAux false (cur ++ l) cs := by
  induction l with
  | nil => intro cur cs; simp
  | cons c t ih =>
    intro cur cs
    have hc : isLineBrk c = false := hl c (by simp)
    have hr : c ≠ '\r' := by
      rintro rfl
      exact absurd hc (by decide)
    rw [List.cons_append]
    rw [show splAux false cur (c :: (t ++ cs)) = splAux false (cur ++ [c]) (t ++ cs) from by
      simp [splAux, hr, hc]]
    rw [ih (fun x hx => hl x (by simp [hx]))]
    simp

theorem pyStripL_single {c : Char} (hc : pyIsSpace c = false) : pyStripL [c] = [c] := by
  simp [pyStripL, List.dropWhile, hc]

theorem pyStripL_decomp (c d : Char) (m : List Char)
    (hc : pyIsSpace c = false) (hd : pyIsSpace d = false) :
    pyStripL (c :: (m ++ [d])) = c :: (m ++ [d]) := by
  unfold pyStripL
  rw [show (c :: (m ++ [d])).dropWhile pyIsSpace = c :: (m ++ [d]) from by
    simp [List.dropWhile, hc]]
  rw [show (c :: (m ++ [d])).reverse = d :: (m.reverse ++ [c]) from by simp]
  rw [show (d :: (m.reverse ++ [c])).dropWhile pyIsSpace = d :: (m.reverse ++ [c]) from by
    simp [List.dropWhile, hd]]
  rw [show (d :: (m.reverse ++ [c])).reverse = c :: (m ++ [d]) from by simp]

/-- `strip` is the identity on a string whose first and last characters
are not whitespace. -/
theorem pyStrip_id_of_ends (s : String)
    (h : ∃ c t, s.data = c :: t ∧ pyIsSpace c = false)
    (h' : ∃ t d, s.data = t ++ [d] ∧ pyIsSpace d = false) :
    pyStrip s = s := by
  obtain ⟨c, t, hct, hc⟩ := h
  obtain ⟨t', d, htd, hd⟩ := h'
  cases t' with
  | nil =>
    have hstrip : pyStripL s.data = s.data := by
      rw [htd]
      simpa using pyStripL_single hd
    unfold pyStrip
    rw [hstrip, strMk_data]
  | cons x m =>
    have hx : x = c := by
      rw [htd] at hct
      simpa using (congrArg (fun l => l.headD ' ') hct)
    have hstrip : pyStripL s.data = s.data := by
      rw [htd, List.cons_append]
      exact pyStripL_decomp x d m (hx ▸ hc) hd
    unfold pyStrip
    rw [hstrip, strMk_data]

/-- When the text starts with a run of non-boundary characters up to the
first newline (or the end), that run is the first line of `splitlines`. -/
theorem pySplitlines_head (s : String) (l rest : List Char)
    (hdata : s.data = l ++ rest) (hl : ∀ c ∈ l, isLineBrk c = false) (hlne : l ≠ [])
    (hrest : rest = [] ∨ ∃ w, rest = '\n' :: w) :
    (pySplitlines s).headD "" = String.mk l := by
  unfold pySplitlines
  rw [hdata, splAux_chars l hl [] rest, List.nil_append]
  rcases hrest with rfl | ⟨w, rfl⟩
  · simp [splAux, hlne]
  · rw [show splAux false l ('\n' :: w) = String.mk l :: splAux false [] w from by
      simp [splAux, show isLineBrk '\n' = true from by decide]]
    rfl

/-! ### Lemmas: structure of rendered tables -/

theorem renderRecord_ne_nil (fs : List String) (hlen : 2 ≤ fs.length) :
    renderRecord fs ≠ [] := by
  match fs, hlen with
  | f :: g :: gs, _ =>
    rw [renderRecord_cons]
    simp

/-- Every character of a rendered record is an unproblematic field
character or the delimiter. -/
theorem renderRecord_mem {c : Char} {fs : List String} (hg : ∀ f ∈ fs, goodField f = true)
    (hc : c ∈ renderRecord fs) : goodChar c = true ∨ c = ',' := by
  induction fs with
  | nil => simp [renderRecord, joinSep] at hc
  | cons f gs ih =>
    cases gs with
    | nil =>
      left
      exact goodField_chars (hg f (by simp)) c (by simpa [renderRecord, joinSep] using hc)
    | cons g gs' =>
      rw [renderRecord_cons] at hc
      rcases List.mem_append.mp hc with h | h
      · exact Or.inl (goodField_chars (hg f (by simp)) c h)
      · rcases List.mem_cons.mp h with rfl | h
        · exact Or.inr rfl
        · exact ih (fun x hx => hg x (by simp [hx])) h

/-- Every character of a rendered table is an unproblematic field
character, the delimiter, or the record separator. -/
theorem renderTable_mem {c : Char} {recs : List (List String)}
    (hg : ∀ r ∈ recs, ∀ f ∈ r, goodField f = true)
    (hc : c ∈ joinSep '\n' (recs.map renderRecord)) :
    goodChar c = true ∨ c = ',' ∨ c = '\n' := by
  induction recs with
  | nil => simp [joinSep] at hc
  | cons r rs ih =>
    cases rs with
    | nil =>
      have hcr : c ∈ renderRecord r := by simpa [joinSep] using hc
      rcases renderRecord_mem (hg r (by simp)) hcr with h | h
      · exact Or.inl h
      · exact Or.inr (Or.inl h)
    | cons r2 rs' =>
      rw [show joinSep '\n' ((r :: r2 :: rs').map renderRecord) =
          renderRecord r ++ '\n' :: joinSep '\n' ((r2 :: rs').map renderRecord) from rfl] at hc
      rcases List.mem_append.mp hc with h | h
      · rcases renderRecord_mem (hg r (by simp)) h with h' | h'
        · exact Or.inl h'
        · exact Or.inr (Or.inl h')
      · rcases List.mem_cons.mp h with rfl | h
        · exact Or.inr (Or.inr rfl)
        · exact ih (fun x hx => hg x (by simp [hx])) h

/-- A rendered record of width at least 2 starts with a non-whitespace,
non-backtick character. -/
theorem renderRecord_head (fs : List String) (hlen : 2 ≤ fs.length)
    (hg : ∀ f ∈ fs, goodField f = true) :
    ∃ c t, renderRecord fs = c :: t ∧ pyIsSpace c = false ∧
      isLineBrk c = false ∧ c ≠ btick := by
  match fs, hlen with
  | f :: g :: gs, _ =>
    cases hfd : f.data with
    | nil =>
      refine ⟨',', renderRecord (g :: gs), ?_, by decide, by decide, by decide⟩
      rw [renderRecord_cons, hfd]
      rfl
    | cons c t =>
      have hc := goodField_chars (hg f (by simp)) c (by simp [hfd])
      obtain ⟨_, _, _, _, hbt, hbr, hsp⟩ := goodChar_facts hc
      refine ⟨c, t ++ ',' :: renderRecord (g :: gs), ?_, hsp, hbr, hbt⟩
      rw [renderRecord_cons, hfd]
      simp

/-- A rendered record is empty or ends with a non-whitespace,
non-backtick character. -/
theorem renderRecord_last (fs : List String) (hne : fs ≠ [])
    (hg : ∀ f ∈ fs, goodField f = true) :
    renderRecord fs = [] ∨
    ∃ t d, renderRecord fs = t ++ [d] ∧ pyIsSpace d = false ∧ d ≠ btick := by
  induction fs with
  | nil => cases hne rfl
  | cons f gs ih =>
    cases gs with
    | nil =>
      rcases List.eq_nil_or_concat f.data with h | ⟨t, d, h⟩
      · left
        rw [show renderRecord [f] = f.data from rfl, h]
      · right
        have hd := goodField_chars (hg f (by simp)) d (by simp [h])
        obtain ⟨_, _, _, _, hbt, _, hsp⟩ := goodChar_facts hd
        refine ⟨t, d, ?_, hsp, hbt⟩
        rw [show renderRecord [f] = f.data from rfl, h]
        simp [List.concat_eq_append]
    | cons g gs' =>
      rcases ih (by simp) (fun x hx => hg x (by simp [hx])) with h | ⟨t, d, h, hsp, hbt⟩
      · right
        refine ⟨f.data, ',', ?_, by decide, by decide⟩
        rw [renderRecord_cons, h]
      · right
        refine ⟨f.data ++ ',' :: t, d, ?_, hsp, hbt⟩
        rw [renderRecord_cons, h]
        simp

/-- A rendered table of width-2 records ends with a non-whitespace,
non-backtick character. -/
theorem renderTable_last (recs : List (List String)) (hne : recs ≠ [])
    (hlen : ∀ r ∈ recs, 2 ≤ r.length) (hg : ∀ r ∈ recs, ∀ f ∈ r, goodField f = true) :
    ∃ t d, joinSep '\n' (recs.map renderRecord) = t ++ [d] ∧
      pyIsSpace d = false ∧ d ≠ btick := by
  induction recs with
  | nil => cases hne rfl
  | cons r rs ih =>
    cases rs with
    | nil =>
      rcases renderRecord_last r
          (by
            intro h
            have := hlen r (by simp)
            rw [h] at this
            simp at this)
          (hg r (by simp)) with h | ⟨t, d, h, hsp, hbt⟩
      · exact absurd h (renderRecord_ne_nil r (hlen r (by simp)))
      · exact ⟨t, d, by simpa [joinSep] using h, hsp, hbt⟩
    | cons r2 rs' =>
      obtain ⟨t, d, h, hsp, hbt⟩ :=
        ih (by simp) (fun x hx => hlen x (by simp [hx])) (fun x hx => hg x (by simp [hx]))
      refine ⟨renderRecord r ++ '\n' :: t, d, ?_, hsp, hbt⟩
      rw [show joinSep '\n' ((r :: r2 :: rs').map renderRecord) =
          renderRecord r ++ '\n' :: joinSep '\n' ((r2 :: rs').map renderRecord) from rfl, h]
      simp

/-- A rendered record of width at least 2 contains a comma. -/
theorem renderRecord_count_comma (fs : List String) (hlen : 2 ≤ fs.length) :
    1 ≤ List.count ',' (renderRecord fs) := by
  match fs, hlen with
  | f :: g :: gs, _ =>
    rw [renderRecord_cons]
    simp [List.count_append, List.count_cons]
    omega

/-! ### Lemmas: the fence substitutions are no-ops without backticks -/

theorem nlSplit_ne_nil (l : List Char) : nlSplit l ≠ [] := by
  cases l with
  | nil => simp [nlSplit]
  | cons c cs =>
    unfold nlSplit
    split
    · simp
    · split <;> simp

theorem joinSep_nlSplit (l : List Char) : joinSep '\n' (nlSplit l) = l := by
  induction l with
  | nil => rfl
  | cons c cs ih =>
    by_cases h : c = '\n'
    · subst h
      rw [show nlSplit ('\n' :: cs) = [] :: nlSplit cs from by simp [nlSplit]]
      cases hs : nlSplit cs with
      | nil => exact absurd hs (nlSplit_ne_nil cs)
      | cons p ps =>
        rw [hs] at ih
        rw [show joinSep '\n' ([] :: p :: ps) = [] ++ '\n' :: joinSep '\n' (p :: ps) from rfl]
        simp [ih]
    · rw [show nlSplit (c :: cs) =
          (match nlSplit cs with
           | [] => [[c]]
           | p :: ps => (c :: p) :: ps) from by simp [nlSplit, h]]
      cases hs : nlSplit cs with
      | nil => exact absurd hs (nlSplit_ne_nil cs)
      | cons p ps =>
        rw [hs] at ih
        cases ps with
        | nil =>
          rw [show joinSep '\n' [p] = p from rfl] at ih
          show (joinSep '\n' [c :: p]) = c :: cs
          rw [show joinSep '\n' [c :: p] = c :: p from rfl, ih]
        | cons p2 ps' =>
          rw [show joinSep '\n' (p :: p2 :: ps') = p ++ '\n' :: joinSep '\n' (p2 :: ps') from rfl]
            at ih
          show (c :: p) ++ '\n' :: joinSep '\n' (p2 :: ps') = c :: cs
          rw [List.cons_append, ih]

theorem nlSplit_mem {c : Char} {p l : List Char} (hp : p ∈ nlSplit l) (hc : c ∈ p) :
    c ∈ l := by
  induction l generalizing p with
  | nil =>
    simp [nlSplit] at hp
    subst hp
    simp at hc
  | cons a cs ih =>
    by_cases h : a = '\n'
    · rw [show nlSplit (a :: cs) = [] :: nlSplit cs from by simp [nlSplit, h]] at hp
      rcases List.mem_cons.mp hp with rfl | hp
      · simp at hc
      · exact List.mem_cons_of_mem a (ih hp hc)
    · rw [show nlSplit (a :: cs) =
          (match nlSplit cs with
           | [] => [[a]]
           | p :: ps => (a :: p) :: ps) from by simp [nlSplit, h]] at hp
      cases hs : nlSplit cs with
      | nil => exact absurd hs (nlSplit_ne_nil cs)
      | cons p1 ps =>
        rw [hs] at hp
        rcases List.mem_cons.mp hp with rfl | hp
        · rcases List.mem_cons.mp hc with rfl | hc
          · simp
          · exact List.mem_cons_of_mem a (ih (p := p1) (by rw [hs]; simp) hc)
        · exact List.mem_cons_of_mem a (ih (by rw [hs]; exact List.mem_cons_of_mem p1 hp) hc)

theorem stripTicksStart_id {l : List Char} (h : ∀ c ∈ l, c ≠ btick) :
    stripTicksStart l = l := by
  have h6a : l.take 6 ≠ ticks3 ++ ['c', 's', 'v'] := by
    intro heq
    have hm : btick ∈ l.take 6 := by rw [heq]; simp [ticks3]
    exact h btick (List.mem_of_mem_take hm) rfl
  have h6b : l.take 6 ≠ ticks3 ++ ['C', 'S', 'V'] := by
    intro heq
    have hm : btick ∈ l.take 6 := by rw [heq]; simp [ticks3]
    exact h btick (List.mem_of_mem_take hm) rfl
  have h3 : l.take 3 ≠ ticks3 := by
    intro heq
    have hm : btick ∈ l.take 3 := by rw [heq]; simp [ticks3]
    exact h btick (List.mem_of_mem_take hm) rfl
  simp [stripTicksStart, h6a, h6b, h3]

theorem stripTicksEnd_id {l : List Char} (h : ∀ c ∈ l, c ≠ btick) :
    stripTicksEnd l = l := by
  have h3 : l.reverse.take 3 ≠ ticks3 := by
    intro heq
    have hm : btick ∈ l.reverse.take 3 := by rw [heq]; simp [ticks3]
    have : btick ∈ l := by simpa using List.mem_of_mem_take hm
    exact h btick this rfl
  simp [stripTicksEnd, h3]

theorem fenceStart_id {l : List Char} (h : ∀ c ∈ l, c ≠ btick) : fenceStart l = l := by
  unfold fenceStart
  have hmap : (nlSplit l).map stripTicksStart = (nlSplit l).map id :=
    List.map_congr_left (fun p hp => stripTicksStart_id (fun c hc => h c (nlSplit_mem hp hc)))
  rw [hmap, List.map_id, joinSep_nlSplit]

theorem fenceEnd_id {l : List Char} (h : ∀ c ∈ l, c ≠ btick) : fenceEnd l = l := by
  unfold fenceEnd
  have hmap : (nlSplit l).map stripTicksEnd = (nlSplit l).map id :=
    List.map_congr_left (fun p hp => stripTicksEnd_id (fun c hc => h c (nlSplit_mem hp hc)))
  rw [hmap, List.map_id, joinSep_nlSplit]

/-! ### The extractor on well-formed rendered tables -/

theorem wfTable_spec {header : List String} {rows : List (List String)}
    (h : wfTable header rows = true) :
    2 ≤ header.length ∧ (∀ r ∈ rows, r.length = header.length) ∧
    (∀ r ∈ header :: rows, ∀ f ∈ r, goodField f = true) := by
  simp only [wfTable, Bool.and_eq_true, decide_eq_true_eq, List.all_eq_true] at h
  obtain ⟨⟨h1, h2⟩, h3⟩ := h
  exact ⟨h1, fun r hr => by simpa using h2 r hr, fun r hr f hf => h3 r hr f hf⟩

theorem pyStrip_renderTable (header : List String) (rows : List (List String))
    (hwf : wfTable header rows = true) :
    pyStrip (renderTable header rows) = renderTable header rows := by
  obtain ⟨h1, h2, h3⟩ := wfTable_spec hwf
  apply pyStrip_id_of_ends
  · obtain ⟨c, t, hh, hsp, _, _⟩ := renderRecord_head header h1 (h3 header (by simp))
    cases rows with
    | nil =>
      exact ⟨c, t,
        by rw [show (renderTable header []).data = renderRecord header from rfl, hh], hsp⟩
    | cons r rs =>
      refine ⟨c, t ++ '\n' :: joinSep '\n' ((r :: rs).map renderRecord), ?_, hsp⟩
      rw [show (renderTable header (r :: rs)).data =
          renderRecord header ++ '\n' :: joinSep '\n' ((r :: rs).map renderRecord) from rfl, hh]
      simp
  · have hlenAll : ∀ r ∈ header :: rows, 2 ≤ r.length := by
      intro r hr
      rcases List.mem_cons.mp hr with rfl | hr
      · exact h1
      · rw [h2 r hr]; exact h1
    obtain ⟨t, d, hl, hsp, _⟩ := renderTable_last (header :: rows) (by simp) hlenAll h3
    exact ⟨t, d,
      by rw [show (renderTable header rows).data =
          joinSep '\n' ((header :: rows).map renderRecord) from rfl, hl], hsp⟩

theorem firstline_renderTable (header : List String) (rows : List (List String))
    (hwf : wfTable header rows = true) :
    (pySplitlines (pyStrip (renderTable header rows))).headD "" =
      String.mk (renderRecord header) := by
  obtain ⟨h1, h2, h3⟩ := wfTable_spec hwf
  rw [pyStrip_renderTable header rows hwf]
  have hnb : ∀ c ∈ renderRecord header, isLineBrk c = false := by
    intro c hc
    rcases renderRecord_mem (h3 header (by simp)) hc with h | rfl
    · exact (goodChar_facts h).2.2.2.2.2.1
    · decide
  cases rows with
  | nil =>
    exact pySplitlines_head _ (renderRecord header) []
      (by rw [List.append_nil]; rfl) hnb (renderRecord_ne_nil header h1) (Or.inl rfl)
  | cons r rs =>
    exact pySplitlines_head _ (renderRecord header)
      ('\n' :: joinSep '\n' ((r :: rs).map renderRecord)) rfl hnb
      (renderRecord_ne_nil header h1) (Or.inr ⟨_, rfl⟩)

theorem cleanedText_renderTable (header : List String) (rows : List (List String))
    (hwf : wfTable header rows = true) :
    cleanedText (renderTable header rows) = renderTable header rows := by
  obtain ⟨h1, h2, h3⟩ := wfTable_spec hwf
  have hbt : ∀ c ∈ (renderTable header rows).data, c ≠ btick := by
    intro c hc
    rcases renderTable_mem h3 hc with h | rfl | rfl
    · exact (goodChar_facts h).2.2.2.2.1
    · decide
    · decide
  unfold cleanedText
  rw [pyStrip_renderTable header rows hwf, fenceStart_id hbt, fenceEnd_id hbt, strMk_data]

theorem csvReader_renderTable (header : List String) (rows : List (List String))
    (hwf : wfTable header rows = true) :
    csvReader (renderTable header rows) = header :: rows := by
  obtain ⟨h1, h2, h3⟩ := wfTable_spec hwf
  unfold csvReader
  rw [show (renderTable header rows).data =
      joinSep '\n' ((header :: rows).map renderRecord) from rfl]
  exact csvAux_table (header :: rows) (by simp)
    (fun r hr => by
      rcases List.mem_cons.mp hr with rfl | hr
      · exact h1
      · rw [h2 r hr]; exact h1)
    h3

/-- C2 (amended): the extractor is not fence-idempotent — on every
well-formed comma-separated text, parsing the text directly yields its
table, but parsing the ```` ```csv ````-wrapped form yields absent,
because the first-line delimiter check runs before fence stripping and
the fence line contains no comma. -/
theorem parse_fenceWrap_differs (header : List String) (rows : List (List String))
    (hwf : wfTable header rows = true) :
    parse_csv_from_text (renderTable header rows) = some (header, rows) ∧
    parse_csv_from_text (fenceWrap (renderTable header rows)) = none := by
  obtain ⟨h1, h2, h3⟩ := wfTable_spec hwf
  constructor
  · unfold parse_csv_from_text
    rw [firstline_renderTable header rows hwf]
    have hcount : ¬ List.count ',' (String.mk (renderRecord header)).data < 1 := by
      have hge := renderRecord_count_comma header h1
      change ¬ List.count ',' (renderRecord header) < 1
      omega
    rw [if_neg hcount, cleanedText_renderTable header rows hwf,
      csvReader_renderTable header rows hwf]
    dsimp only
    rw [if_neg (show ¬ (rows.any fun r => decide (r.length ≠ header.length)) = true by
      simp
      exact h2)]
  · unfold parse_csv_from_text
    have hdata : (fenceWrap (renderTable header rows)).data =
        [btick, btick, btick, 'c', 's', 'v', '\n'] ++
          (renderTable header rows).data ++ ['\n', btick, btick, btick] := by
      unfold fenceWrap
      rw [strData_append, strData_append]
      rw [show ("```csv\n" : String).data = [btick, btick, btick, 'c', 's', 'v', '\n'] from by
        decide]
      rw [show ("\n```" : String).data = ['\n', btick, btick, btick] from by decide]
    have hstrip : pyStrip (fenceWrap (renderTable header rows)) =
        fenceWrap (renderTable header rows) := by
      apply pyStrip_id_of_ends
      · refine ⟨btick, [btick, btick, 'c', 's', 'v', '\n'] ++
          (renderTable header rows).data ++ ['\n', btick, btick, btick], ?_, by decide⟩
        rw [hdata]
        simp
      · refine ⟨[btick, btick, btick, 'c', 's', 'v', '\n'] ++
          (renderTable header rows).data ++ ['\n', btick, btick], btick, ?_, by decide⟩
        rw [hdata]
        simp
    rw [hstrip]
    have hfl : (pySplitlines (fenceWrap (renderTable header rows))).headD "" =
        String.mk [btick, btick, btick, 'c', 's', 'v'] := by
      apply pySplitlines_head _ [btick, btick, btick, 'c', 's', 'v']
        ('\n' :: ((renderTable header rows).data ++ ['\n', btick, btick, btick]))
      · rw [hdata]
        simp
      · decide
      · simp
      · exact Or.inr ⟨_, rfl⟩
    rw [hfl]
    rw [if_pos (by decide :
      List.count ',' (String.mk [btick, btick, btick, 'c', 's', 'v']).data < 1)]

/-- Witness for the amended C2 at a concrete well-formed table. -/
theorem parse_fenceWrap_differs_w :
    wfTable ["Date", "Revenue"] [["2024-01-01", "100.0"], ["2024-01-02", "150.0"]] = true ∧
    (parse_csv_from_text
        (renderTable ["Date", "Revenue"] [["2024-01-01", "100.0"], ["2024-01-02", "150.0"]]) =
      some (["Date", "Revenue"], [["2024-01-01", "100.0"], ["2024-01-02", "150.0"]]) ∧
    parse_csv_from_text
        (fenceWrap
          (renderTable ["Date", "Revenue"] [["2024-01-01", "100.0"], ["2024-01-02", "150.0"]])) =
      none) :=
  ⟨by decide,
   parse_fenceWrap_differs ["Date", "Revenue"]
     [["2024-01-01", "100.0"], ["2024-01-02", "150.0"]] (by decide)⟩

/-- Counterexample to C2 as stated: for the well-formed comma-separated
text `"a,b\n1,2"`, parsing the text directly yields its table while
parsing the fence-wrapped form yields absent — the two results differ. -/
theorem parse_fence_not_idempotent :
    parse_csv_from_text "a,b\n1,2" = some (["a", "b"], [["1", "2"]]) ∧
    parse_csv_from_text "```csv\na,b\n1,2\n```" = none ∧
    parse_csv_from_text "```csv\na,b\n1,2\n```" ≠ parse_csv_from_text "a,b\n1,2" := by
  refine ⟨by decide, by decide, by decide⟩
